import Mathlib

/- Verification of bin/git-review.py: a shallow embedding of the script over an
abstract state of the local git repository, followed by theorems about the
branch-resolution, platform-dispatch, message-construction and submit logic. -/

namespace GitReview

/-- Auxiliary recursion for Python str.split on a one-character separator,
carrying the reversed current chunk. -/
def splitCharAux (sep : Char) : List Char → List Char → List (List Char)
  | [], acc => [acc.reverse]
  | c :: cs, acc =>
    if c = sep then acc.reverse :: splitCharAux sep cs []
    else splitCharAux sep cs (c :: acc)

/-- Python s.split(sep) for a one-character separator, as the script applies it
to command output. Note that splitting the empty string yields one empty part. -/
def pySplit (sep : Char) (s : String) : List String :=
  (splitCharAux sep s.toList []).map String.mk

/-- Python sep.join(xs). -/
def pyJoin (sep : String) : List String → String
  | [] => ""
  | [x] => x
  | x :: y :: xs => x ++ sep ++ pyJoin sep (y :: xs)

/-- Python s[n:] slicing from a character index. -/
def pyDrop (s : String) (n : Nat) : String :=
  String.mk (s.toList.drop n)

/-- Python s.endswith(suf). -/
def endsWithPy (s suf : String) : Bool :=
  decide (s.toList.reverse.take suf.toList.length = suf.toList.reverse)

/-- Python s.startswith(p), used to model the anchored literal part of a regex. -/
def startsWithPy (s p : String) : Bool :=
  decide (s.toList.take p.toList.length = p.toList)

/-- Python s.rsplit(sep, 1)[-1] for the slash separator: the part after the last
slash, the whole string when there is no slash. -/
def afterLastSlash (s : String) : String :=
  String.mk ((s.toList.reverse.takeWhile (fun c => c ≠ '/')).reverse)

/-- Auxiliary recursion for Python s.split(sep, 1) with a newline separator. -/
def splitOnceAux : List Char → List Char → List String
  | [], acc => [String.mk acc.reverse]
  | c :: cs, acc =>
    if c = '\n' then [String.mk acc.reverse, String.mk cs]
    else splitOnceAux cs (c :: acc)

/-- Python message.split(a newline, 1): at most one split, at the first newline. -/
def pySplitOnceNl (s : String) : List String :=
  splitOnceAux s.toList []

/-- Python x or y for an optional string x: None and the empty string are falsy. -/
def pyOr (x : Option String) (y : String) : String :=
  match x with
  | some s => if s = "" then y else s
  | none => y

/-- Python list.remove semantics: drop the first occurrence; none models the
ValueError that list.remove raises when the element is absent. -/
def removeFirstPy (xs : List String) (a : String) : Option (List String) :=
  match xs with
  | [] => none
  | x :: rest => if x = a then some rest else (removeFirstPy rest a).map (x :: ·)

/-- Python "sub in s" substring containment. -/
def containsSub (s sub : String) : Bool :=
  (List.range (s.toList.length + 1)).any
    (fun p => decide ((s.toList.drop p).take sub.toList.length = sub.toList))

/-- Fragment of the transliteration tables of the external unidecode library,
restricted to the characters used in the theorems below. The library folds the
fullwidth forms U+FF01..U+FF5E to their plain ASCII counterparts (so U+FF03, the
fullwidth number sign, becomes the hash sign) and folds accented letters to
their base letter. -/
def unidecodeTable : List (Char × List Char) :=
  [(Char.ofNat 0xFF03, ['#']),
   (Char.ofNat 0x266F, ['#']),
   ('é', ['e']), ('è', ['e']), ('à', ['a']), ('ç', ['c']),
   ('Ü', ['U']), ('ü', ['u']), ('ï', ['i'])]

/-- Transliteration of a single character by the external unidecode library:
code points below 128 pass through unchanged; any other character maps to an
ASCII string taken from the library tables, the empty string when the tables
have no entry for it. -/
def unidecodeChar (c : Char) : List Char :=
  if c.toNat < 128 then [c]
  else ((unidecodeTable.find? (fun p => p.1 == c)).map (fun p => p.2)).getD []

/-- Python unidecode.unidecode on a string: character-wise transliteration. -/
def unidecodeStr (s : String) : String :=
  String.mk ((s.toList.map unidecodeChar).flatten)

/-- Python exceptions that the modelled paths of the script can raise:
ValueError raised explicitly (and by list.remove and by tuple unpacking),
IndexError from out-of-range indexing, and CalledProcessError from
subprocess.check_output on a non-zero exit. -/
inductive Err
  | valueError (msg : String)
  | indexError
  | processError
  | notImplementedError (msg : String)
  deriving DecidableEq

/-- Simple structure containing all needed branch references (class _References
of the script). -/
structure _References where
  default : String
  branch : String
  remote : String
  base : String
  deriving DecidableEq

/-- Abstract state of the local repository and of the external collaborators.
Each field holds the stripped stdout (as _run_git returns it) of one git query,
or the outcome of one external capability. The history field lists the full
rev-list of a ref, nearest commit first; remoteContaining lists the
remote-tracking branches (matching the origin glob, in the order the backend
reports them) that contain a sha. -/
structure GitEnv where
  headOut : String
  originHeadOut : String
  localBranches : List String
  configMergeOut : Option String
  hasDiffAt : String → Bool
  history : String → List String
  remoteContaining : String → List String
  gitLog : String → String
  hookExecutable : Bool
  hookRun : String → String → String → Except Unit String
  remoteUrl : String
  userList : String → List Nat
  mergeBase : String → String → String
  revParse : String → String

/-- Stdout of the git branch command at line 84 of the script. The format
argument is passed to git verbatim (subprocess uses no shell), so the literal
double quotes inside the argument are part of the format string and git prints
every short ref name wrapped in double quotes. -/
def branchFormatOut (env : GitEnv) : String :=
  pyJoin "\n" (env.localBranches.map (fun b => "\"" ++ b ++ "\""))

/-- Stdout of git rev-list with max-count 5 on a ref: the five nearest commits. -/
def revList5Out (env : GitEnv) (ref : String) : String :=
  pyJoin "\n" ((env.history ref).take 5)

/-- Stdout of the remote-containing branch query (line 106). The two-space
indentation git prints on each line is elided here: the script reads the lines
only through endswith and through the last path component of the first line
(which the surrounding strip deindents), and neither is affected by it. -/
def remoteContainsOut (env : GitEnv) (sha : String) : String :=
  pyJoin "\n" (env.remoteContaining sha)

/-- Function _get_head: the current branch, ValueError when rev-parse printed
nothing. -/
def _get_head (env : GitEnv) : Except Err String :=
  if env.headOut = "" then Except.error (.valueError "Unable to find a branch at HEAD")
  else Except.ok env.headOut

/-- Function _get_default: the second slash-separated field of the stdout of
rev-parse on the remote HEAD; IndexError when there is no second field. -/
def _get_default (env : GitEnv) : Except Err String :=
  match (pySplit '/' env.originHeadOut)[1]? with
  | some s => Except.ok s
  | none => Except.error .indexError

/-- Function _get_existing_remote: the per-branch merge config value with its
first 11 characters (the length of the string refs.heads.) dropped; none models
the CalledProcessError branch when the config entry does not exist. -/
def _get_existing_remote (env : GitEnv) : Option String :=
  env.configMergeOut.map (fun s => pyDrop s 11)

/-- Function _cleanup_branch_name: join of the split on the hash character
(which removes every hash character), then unidecode. -/
def _cleanup_branch_name (branch : String) : String :=
  unidecodeStr (pyJoin "" (pySplit '#' branch))

/-- Loop of _get_best_base_branch (lines 104-107): a walrus assignment with a
break, so the loop yields the first nonempty stdout of the remote-containing
query over the scanned shas, and none when every scanned sha yields empty
output (the final falsy value then fails the subsequent truthiness test). -/
def bestBaseLoop (env : GitEnv) : List String → Option String
  | [] => none
  | sha :: rest =>
    if remoteContainsOut env sha = "" then bestBaseLoop env rest
    else some (remoteContainsOut env sha)

/-- Function _get_best_base_branch. -/
def _get_best_base_branch (env : GitEnv) (branch default : String) : Option String :=
  match bestBaseLoop env (pySplit '\n' (revList5Out env branch)) with
  | none => none
  | some remote_branches =>
    if (pySplit '\n' remote_branches).any (fun rb => endsWithPy rb ("/" ++ default))
    then none
    else some (afterLastSlash ((pySplit '\n' remote_branches).headD ""))

/-- Message of the dirty-tree ValueError (lines 88-90). -/
def dirtyMsg : String :=
  "Current git status is dirty. Commit, stash or revert your changes before sending for review."

/-- Function _get_git_branches: compute the branch references, or fail. The
exception control flow is rendered as explicit propagation. -/
def _get_git_branches (env : GitEnv) (username : String) (base : Option String) :
    Except Err _References :=
  match _get_head env with
  | Except.error e => Except.error e
  | Except.ok branch =>
  match _get_default env with
  | Except.error e => Except.error e
  | Except.ok default =>
  if branch = default then
    match removeFirstPy (pySplit '\n' (branchFormatOut env)) default with
    | none => Except.error (.valueError "list.remove(x): x not in list")
    | some others =>
      Except.error (.valueError ("branch required:\n\t" ++ pyJoin "\n\t" others))
  else if env.hasDiffAt "HEAD" then
    Except.error (.valueError dirtyMsg)
  else
    let base1 :=
      match base with
      | some b =>
        if b = "" then pyOr (_get_best_base_branch env branch default) default else b
      | none => pyOr (_get_best_base_branch env branch default) default
    let remote_branch :=
      pyOr (_get_existing_remote env) (_cleanup_branch_name (username ++ "-" ++ branch))
    Except.ok { default := default, branch := branch, remote := remote_branch, base := base1 }

/-- Greedy capture of the regex at line 33 of the script, matched at the start
of the URL: after the literal fourteen-character host part, the group takes the
longest run of non-newline characters that is followed by the four characters
dot g i t. The match need not cover the whole URL. -/
def gitlabRegexCapture (url : String) : Option String :=
  if startsWithPy url "git@gitlab.com" then
    let rest := url.toList.drop 14
    (((List.range (rest.length + 1)).filter
      (fun p => decide ((rest.drop p).take 4 = ['.', 'g', 'i', 't']) &&
                !(rest.take p).contains '\n')).getLast?).map
      (fun p => String.mk (rest.take p))
  else none

/-- Review platforms the factory can produce, with the constructor argument the
gitlab backend receives as its project name. -/
inductive _RemoteGitPlatform
  | gitlabP (project_name : String)
  | githubP
  deriving DecidableEq

/-- Method _RemoteGitPlatform.from_url: gitlab regex first, then the github
substring test, otherwise NotImplementedError. -/
def from_url (remote_url : String) : Except Err _RemoteGitPlatform :=
  match gitlabRegexCapture remote_url with
  | some g => Except.ok (.gitlabP g)
  | none =>
    if containsSub remote_url "github.com" then Except.ok .githubP
    else Except.error
      (.notImplementedError ("Review platform not recognized. Remote URL is " ++ remote_url))

/-- Parameters of the merge request the gitlab backend creates (the
mr_parameters dictionary of lines 182-190). -/
structure MrParams where
  description : String
  source_branch : String
  target_branch : String
  title : String
  assignee_id : Option Nat
  deriving DecidableEq

/-- Method _GitlabPlatform._get_reviewers: an and-or chain in which None and the
empty handle string yield the empty list, and otherwise the backend user lookup
is returned (it may itself be empty). User ids stand in for user objects. -/
def _get_reviewers (env : GitEnv) (reviewers : Option String) : List Nat :=
  match reviewers with
  | none => []
  | some r => if r = "" then [] else env.userList r

/-- Method _GitlabPlatform.request_review: unpack the one-split of the message
into title and description (a ValueError when the message has no newline), then
build the merge request parameters, assigning the first resolved user if any. -/
def gitlab_request_review (env : GitEnv) (message : String) (refs : _References)
    (reviewers : Option String) : Except Err MrParams :=
  match pySplitOnceNl message with
  | [title, description] =>
    let params : MrParams :=
      { description := description, source_branch := refs.remote,
        target_branch := refs.base, title := title, assignee_id := none }
    match _get_reviewers env reviewers with
    | [] => Except.ok params
    | u :: _ => Except.ok { params with assignee_id := some u }
  | _ => Except.error (.valueError "not enough values to unpack (expected 2, got 1)")

/-- Method _GithubPlatform.request_review: the hub command line it invokes. -/
def github_request_review (message : String) (refs : _References)
    (reviewers : Option String) : List String :=
  ["hub", "pull-request", "-m", message, "-h", refs.remote, "-b", refs.base] ++
    (match reviewers with
     | none => []
     | some r => if r = "" then [] else ["-a", r, "-r", r])

/-- Function _run_git_review_hook: empty output when the hook file is absent or
not executable; otherwise the hook runs with the BRANCH, REMOTE_BRANCH and
REVIEWER environment values (REVIEWER defaulting to the empty string), and a
non-zero exit surfaces as CalledProcessError. -/
def _run_git_review_hook (env : GitEnv) (branch remote_branch : String)
    (reviewer : Option String) : Except Err String :=
  if env.hookExecutable then
    match env.hookRun branch remote_branch (reviewer.getD "") with
    | Except.ok out => Except.ok out
    | Except.error _ => Except.error .processError
  else Except.ok ""

/-- Function _make_pr_message: the raw-body commit log of the range from the
remote base to the branch, concatenated with the hook output. -/
def _make_pr_message (env : GitEnv) (refs : _References) (reviewers : Option String) :
    Except Err String :=
  match _run_git_review_hook env refs.branch refs.remote reviewers with
  | Except.error e => Except.error e
  | Except.ok hook =>
    Except.ok (env.gitLog ("origin/" ++ refs.base ++ ".." ++ refs.branch) ++ hook)

/-- Observable mutations the workflow performs, in order: the push of the
branch refspec, the platform review request, and the git submit call whose flag
records that GIT_SUBMIT_AUTO_MERGE is set in its environment. -/
inductive Effect
  | push (forced : Bool) (refspec : String)
  | mergeRequest (params : MrParams)
  | pullRequest (command : List String)
  | gitSubmit (auto_merge : Bool)
  deriving DecidableEq

/-- Function _request_review: build the message, then dispatch on the remote
URL and issue the platform review request. -/
def _request_review (env : GitEnv) (refs : _References) (reviewers : Option String) :
    Except Err Effect :=
  match _make_pr_message env refs reviewers with
  | Except.error e => Except.error e
  | Except.ok message =>
  match from_url env.remoteUrl with
  | Except.error e => Except.error e
  | Except.ok (.gitlabP _) =>
    match gitlab_request_review env message refs reviewers with
    | Except.error e => Except.error e
    | Except.ok params => Except.ok (.mergeRequest params)
  | Except.ok .githubP => Except.ok (.pullRequest (github_request_review message refs reviewers))

/-- Outcome of one workflow run: the mutations performed, in order, and the
error that aborted the run, if any. -/
structure RunResult where
  effects : List Effect
  error : Option Err
  deriving DecidableEq

/-- Message of the missing-username ValueError (lines 232-234). -/
def usernameMsg : String :=
  "Could not find username, most probably you need to setup an email with:\n  git config user.email <me@bayesimpact.org>"

/-- Message of the nothing-to-review ValueError (line 239). -/
def submittedMsg : String :=
  "All code on this branch has already been submitted"

/-- Message of the local-remote mismatch ValueError (line 248). -/
def consistencyMsg : String :=
  "Local branch is not in the same state as remote branch. Not submitting."

/-- Function prepare_push_and_request_review: resolve, check for a non-empty
diff against the merge base, push, request the review unless forced, and when
submitting compare the local and remote shas before calling git submit. -/
def prepare_push_and_request_review (env : GitEnv) (username : String)
    (base : Option String) (reviewers : Option String)
    (is_forced is_submit : Bool) : RunResult :=
  if username = "" then ⟨[], some (.valueError usernameMsg)⟩ else
  match _get_git_branches env username base with
  | Except.error e => ⟨[], some e⟩
  | Except.ok refs =>
    let merge_base := env.mergeBase "HEAD" ("origin/" ++ refs.base)
    if env.hasDiffAt merge_base = false then ⟨[], some (.valueError submittedMsg)⟩ else
    let pushed : List Effect := [.push is_forced (refs.branch ++ ":" ++ refs.remote)]
    match (if is_forced then Except.ok none
           else Except.map some (_request_review env refs reviewers)) with
    | Except.error e => ⟨pushed, some e⟩
    | Except.ok reviewEffOpt =>
      let effs := pushed ++ (match reviewEffOpt with | some eff => [eff] | none => [])
      if is_submit = false then ⟨effs, none⟩ else
      let local_sha := env.revParse refs.branch
      let remote_sha := env.revParse ("origin/" ++ refs.remote)
      if local_sha = remote_sha then ⟨effs ++ [.gitSubmit true], none⟩
      else ⟨effs, some (.valueError consistencyMsg)⟩

/-- Claim-side reading of the phrase strip the remote prefix: the short name of
a remote-tracking branch relative to the push remote. -/
def stripRemoteShortName (rb : String) : String :=
  if startsWithPy rb "origin/" then pyDrop rb 7 else rb

/-- Claim-side transcription of the best-base heuristic exactly as the claim
states it: scan the at most 5 most recent commits nearest first; at the first
scanned commit contained in at least one remote-tracking branch collect all
such branches; fall back (none) when one of them is the default branch; and
otherwise answer the short name, remote prefix stripped, of the first collected
branch in backend order. -/
def bestBaseClaimed (env : GitEnv) (branch default : String) : Option String :=
  match ((env.history branch).take 5).find?
      (fun sha => !(env.remoteContaining sha).isEmpty) with
  | none => none
  | some sha =>
    if (env.remoteContaining sha).any (fun rb => stripRemoteShortName rb == default)
    then none
    else some (stripRemoteShortName ((env.remoteContaining sha).headD ""))

/-- Amended claim-side transcription of the best-base heuristic, matching the
code: the default-branch test is a suffix test of slash-default on the
collected branch names, and the answer is the last slash-separated component of
the first collected branch. -/
def bestBaseAmended (env : GitEnv) (branch default : String) : Option String :=
  match ((env.history branch).take 5).find?
      (fun sha => !(env.remoteContaining sha).isEmpty) with
  | none => none
  | some sha =>
    if (env.remoteContaining sha).any (fun rb => endsWithPy rb ("/" ++ default))
    then none
    else some (afterLastSlash ((env.remoteContaining sha).headD ""))

/-- Claim-side first line of a message. -/
def firstLineOf (s : String) : String :=
  String.mk (s.toList.takeWhile (fun c => c ≠ '\n'))

/-- Claim-side remainder of a message after its first line. -/
def afterFirstLine (s : String) : String :=
  String.mk ((s.toList.dropWhile (fun c => c ≠ '\n')).drop 1)

/-- Splitting a separator-free chunk yields a single part. -/
theorem splitCharAux_of_not_mem (sep : Char) (l acc : List Char) (h : sep ∉ l) :
    splitCharAux sep l acc = [acc.reverse ++ l] := by
  induction l generalizing acc with
  | nil => simp [splitCharAux]
  | cons c cs ih =>
    have hc : ¬ c = sep := fun e => h (e ▸ List.mem_cons_self c cs)
    simp only [splitCharAux, if_neg hc]
    rw [ih _ (fun hm => h (List.mem_cons_of_mem _ hm))]
    simp

/-- Splitting peels off a separator-free chunk before a separator. -/
theorem splitCharAux_append (sep : Char) (l cs acc : List Char) (h : sep ∉ l) :
    splitCharAux sep (l ++ sep :: cs) acc = (acc.reverse ++ l) :: splitCharAux sep cs [] := by
  induction l generalizing acc with
  | nil => simp [splitCharAux]
  | cons c cs2 ih =>
    have hc : ¬ c = sep := fun e => h (e ▸ List.mem_cons_self c cs2)
    have hstep : splitCharAux sep ((c :: cs2) ++ sep :: cs) acc
        = splitCharAux sep (cs2 ++ sep :: cs) (c :: acc) := by
      simp [splitCharAux, hc]
    rw [hstep, ih _ (fun hm => h (List.mem_cons_of_mem _ hm))]
    simp

/-- Unfolding of pyJoin on a list of at least two parts. -/
theorem pyJoin_cons (sep x : String) (xs : List String) (h : xs ≠ []) :
    pyJoin sep (x :: xs) = x ++ sep ++ pyJoin sep xs := by
  cases xs with
  | nil => exact absurd rfl h
  | cons y ys => rfl

/-- Round trip: splitting a newline join of nonempty, newline-free parts
recovers the parts. -/
theorem pySplit_pyJoin_nl (xs : List String) (h1 : xs ≠ [])
    (h2 : ∀ x ∈ xs, '\n' ∉ x.toList) :
    pySplit '\n' (pyJoin "\n" xs) = xs := by
  induction xs with
  | nil => exact absurd rfl h1
  | cons x ys ih =>
    cases ys with
    | nil =>
      show pySplit '\n' x = [x]
      unfold pySplit
      rw [splitCharAux_of_not_mem _ _ _ (h2 x (List.mem_cons_self _ _))]
      rfl
    | cons y zs =>
      have hx : '\n' ∉ x.data := h2 x (List.mem_cons_self _ _)
      have hrest := ih (by simp) (fun a ha => h2 a (List.mem_cons_of_mem _ ha))
      show (splitCharAux '\n' (pyJoin "\n" (x :: y :: zs)).data []).map String.mk = _
      have hdata : (pyJoin "\n" (x :: y :: zs)).data
          = x.data ++ '\n' :: (pyJoin "\n" (y :: zs)).data := by
        show (x.data ++ "\n".data) ++ (pyJoin "\n" (y :: zs)).data = _
        simp
      rw [hdata, splitCharAux_append _ _ _ _ hx]
      simp only [List.map_cons, List.reverse_nil, List.nil_append]
      exact congrArg (x :: ·) hrest

/-- Joining a list headed by a nonempty part is nonempty. -/
theorem pyJoin_nl_ne_empty (x : String) (xs : List String) (hx : x ≠ "") :
    pyJoin "\n" (x :: xs) ≠ "" := by
  cases xs with
  | nil => exact hx
  | cons y ys =>
    intro h
    have hd : (x.data ++ ['\n']) ++ (pyJoin "\n" (y :: ys)).data = ([] : List Char) := by
      calc (x.data ++ ['\n']) ++ (pyJoin "\n" (y :: ys)).data
          = (pyJoin "\n" (x :: y :: ys)).data := rfl
        _ = ("" : String).data := by rw [h]
        _ = [] := rfl
    simp at hd

/-- Loop of the best-base heuristic, characterized: first scanned sha on at
least one remote branch, with the joined backend output. -/
theorem bestBaseLoop_eq_find (env : GitEnv) (shas : List String)
    (h : ∀ sha ∈ shas, ∀ rb ∈ env.remoteContaining sha, rb ≠ "") :
    bestBaseLoop env shas =
      (shas.find? (fun sha => !(env.remoteContaining sha).isEmpty)).map
        (fun sha => remoteContainsOut env sha) := by
  induction shas with
  | nil => rfl
  | cons sha rest ih =>
    have hstep : bestBaseLoop env (sha :: rest)
        = if remoteContainsOut env sha = "" then bestBaseLoop env rest
          else some (remoteContainsOut env sha) := rfl
    cases hB : env.remoteContaining sha with
    | nil =>
      have hout : remoteContainsOut env sha = "" := by
        simp [remoteContainsOut, hB, pyJoin]
      rw [hstep, if_pos hout, List.find?_cons_of_neg _ (by simp [hB])]
      exact ih (fun s hs rb hrb => h s (List.mem_cons_of_mem _ hs) rb hrb)
    | cons b bs =>
      have hb : b ≠ "" :=
        h sha (List.mem_cons_self _ _) b (by rw [hB]; exact List.mem_cons_self _ _)
      have hout : remoteContainsOut env sha ≠ "" := by
        show pyJoin "\n" (env.remoteContaining sha) ≠ ""
        rw [hB]
        exact pyJoin_nl_ne_empty b bs hb
      rw [hstep, if_neg hout, List.find?_cons_of_pos _ (by simp [hB])]
      rfl

/-- Under well-formed backend output, the best-base heuristic of the code
equals its amended claim-side transcription. -/
theorem best_base_eq_amended (env : GitEnv) (branch default : String)
    (hhist : env.history branch ≠ [])
    (hsha : ∀ sha ∈ (env.history branch).take 5, '\n' ∉ sha.toList)
    (hrb : ∀ sha ∈ (env.history branch).take 5,
      ∀ rb ∈ env.remoteContaining sha, rb ≠ "" ∧ '\n' ∉ rb.toList) :
    _get_best_base_branch env branch default = bestBaseAmended env branch default := by
  have hw : pySplit '\n' (revList5Out env branch) = (env.history branch).take 5 :=
    pySplit_pyJoin_nl _ (by simp [List.take_eq_nil_iff, hhist]) hsha
  unfold _get_best_base_branch bestBaseAmended
  rw [hw, bestBaseLoop_eq_find env _ (fun sha hs rb hr => (hrb sha hs rb hr).1)]
  cases hf : ((env.history branch).take 5).find?
      (fun sha => !(env.remoteContaining sha).isEmpty) with
  | none => rfl
  | some sha =>
    have hmem := List.mem_of_find?_eq_some hf
    have hBne : env.remoteContaining sha ≠ [] := by
      have := List.find?_some hf
      simpa using this
    have hsplit : pySplit '\n' (remoteContainsOut env sha) = env.remoteContaining sha :=
      pySplit_pyJoin_nl _ hBne (fun rb hr => (hrb sha hmem rb hr).2)
    show (if ((pySplit '\n' (remoteContainsOut env sha)).any
            fun rb => endsWithPy rb ("/" ++ default)) = true then none
          else some (afterLastSlash ((pySplit '\n' (remoteContainsOut env sha)).headD "")))
        = if ((env.remoteContaining sha).any
            fun rb => endsWithPy rb ("/" ++ default)) = true then none
          else some (afterLastSlash ((env.remoteContaining sha).headD ""))
    rw [hsplit]

/-- Success path of _get_git_branches: on a clean, non-default branch the
resolution succeeds and each field is as computed by the code. -/
theorem get_git_branches_ok (env : GitEnv) (username branch default : String)
    (base : Option String)
    (hh : _get_head env = Except.ok branch) (hd : _get_default env = Except.ok default)
    (hne : branch ≠ default) (hclean : env.hasDiffAt "HEAD" = false) :
    _get_git_branches env username base = Except.ok
      { default := default, branch := branch,
        remote := pyOr (_get_existing_remote env)
          (_cleanup_branch_name (username ++ "-" ++ branch)),
        base := match base with
          | some b =>
            if b = "" then pyOr (_get_best_base_branch env branch default) default else b
          | none => pyOr (_get_best_base_branch env branch default) default } := by
  unfold _get_git_branches
  rw [hh, hd]
  simp only [if_neg hne, hclean, Bool.false_eq_true, if_false]

/-- Split never yields an empty list of parts. -/
theorem splitCharAux_ne_nil (sep : Char) (l acc : List Char) :
    splitCharAux sep l acc ≠ [] := by
  induction l generalizing acc with
  | nil => simp [splitCharAux]
  | cons c cs ih =>
    by_cases hc : c = sep
    · simp [splitCharAux, hc]
    · simp only [splitCharAux, if_neg hc]
      exact ih _

/-- Joining the hash-split of a string with the empty separator removes exactly
the hash characters. -/
theorem pyJoin_pySplit_hash (l acc : List Char) :
    pyJoin "" ((splitCharAux '#' l acc).map String.mk)
      = String.mk (acc.reverse ++ l.filter (fun c => c ≠ '#')) := by
  induction l generalizing acc with
  | nil => simp [splitCharAux, pyJoin]
  | cons c cs ih =>
    by_cases hc : c = '#'
    · have hne := splitCharAux_ne_nil '#' cs ([] : List Char)
      have hmapne : (splitCharAux '#' cs []).map String.mk ≠ [] := by
        simpa using hne
      subst hc
      rw [show splitCharAux '#' ('#' :: cs) acc = acc.reverse :: splitCharAux '#' cs []
        from by simp [splitCharAux]]
      rw [List.map_cons, pyJoin_cons _ _ _ hmapne, ih]
      apply String.ext
      show (String.mk acc.reverse).data ++ ("" : String).data ++ _ = _
      simp
    · simp only [splitCharAux, if_neg hc]
      rw [ih]
      apply String.ext
      show ((c :: acc).reverse ++ cs.filter (fun c => c ≠ '#')) = _
      simp [hc]

/-- Function _cleanup_branch_name, rephrased: unidecode of the input with every
hash character removed. -/
theorem cleanup_eq_filter (s : String) :
    _cleanup_branch_name s
      = unidecodeStr (String.mk (s.toList.filter (fun c => c ≠ '#'))) := by
  unfold _cleanup_branch_name pySplit
  rw [pyJoin_pySplit_hash]
  rfl

/-- Every character of every table entry of the unidecode model is ASCII. -/
theorem unidecodeTable_ascii :
    ∀ p ∈ unidecodeTable, ∀ d ∈ p.2, d.toNat < 128 := by decide

/-- Every character the unidecode model emits is ASCII. -/
theorem unidecodeChar_ascii (c d : Char) (hd : d ∈ unidecodeChar c) : d.toNat < 128 := by
  unfold unidecodeChar at hd
  by_cases hc : c.toNat < 128
  · rw [if_pos hc] at hd
    exact (List.eq_of_mem_singleton hd).symm ▸ hc
  · rw [if_neg hc] at hd
    cases hfind : unidecodeTable.find? (fun p => p.1 == c) with
    | none => rw [hfind] at hd; exact absurd hd (by simp)
    | some p =>
      rw [hfind] at hd
      exact unidecodeTable_ascii p (List.mem_of_find?_eq_some hfind) d hd

/-- The unidecode model is the identity on ASCII characters. -/
theorem unidecodeChar_of_ascii (c : Char) (hc : c.toNat < 128) :
    unidecodeChar c = [c] := by
  unfold unidecodeChar
  rw [if_pos hc]

/-- The unidecode model is the identity on ASCII strings. -/
theorem unidecode_flatten_of_ascii (l : List Char) (h : ∀ c ∈ l, c.toNat < 128) :
    (l.map unidecodeChar).flatten = l := by
  induction l with
  | nil => rfl
  | cons c cs ih =>
    simp only [List.map_cons, List.flatten_cons,
      unidecodeChar_of_ascii c (h c (List.mem_cons_self _ _))]
    rw [ih (fun d hd => h d (List.mem_cons_of_mem _ hd))]
    rfl

/-- Unpacking of the one-split of a message holding a newline: the first line
and the remainder. -/
theorem pySplitOnceNl_of_mem (s : String) (h : '\n' ∈ s.toList) :
    pySplitOnceNl s = [firstLineOf s, afterFirstLine s] := by
  unfold pySplitOnceNl firstLineOf afterFirstLine
  show splitOnceAux s.data [] = _
  have key : ∀ (l acc : List Char), '\n' ∈ l →
      splitOnceAux l acc = [String.mk (acc.reverse ++ l.takeWhile (fun c => c ≠ '\n')),
        String.mk ((l.dropWhile (fun c => c ≠ '\n')).drop 1)] := by
    intro l
    induction l with
    | nil => intro acc hl; simp at hl
    | cons c cs ih =>
      intro acc hl
      by_cases hc : c = '\n'
      · subst hc
        simp [splitOnceAux, List.takeWhile, List.dropWhile]
      · have hcs : '\n' ∈ cs := by
          cases List.mem_cons.mp hl with
          | inl he => exact absurd he.symm hc
          | inr hm => exact hm
        simp only [splitOnceAux, if_neg hc]
        rw [ih _ hcs]
        have ht : (c :: cs).takeWhile (fun x => x ≠ '\n') = c :: cs.takeWhile (fun x => x ≠ '\n') := by
          simp [List.takeWhile, hc]
        have hdr : (c :: cs).dropWhile (fun x => x ≠ '\n') = cs.dropWhile (fun x => x ≠ '\n') := by
          simp [List.dropWhile, hc]
        rw [ht, hdr]
        apply congrArg (fun t => [t, String.mk ((cs.dropWhile (fun x => x ≠ '\n')).drop 1)])
        apply String.ext
        simp
  have := key s.data ([] : List Char) h
  simpa using this

/-- A string ending in a given suffix passes the endswith test. -/
theorem endsWithPy_append (a suf : String) : endsWithPy (a ++ suf) suf = true := by
  unfold endsWithPy
  have hdata : (a ++ suf).toList = a.data ++ suf.data := rfl
  rw [hdata, List.reverse_append]
  have hlen : suf.toList.length = suf.data.reverse.length := by simp
  rw [show suf.toList.length = suf.data.reverse.length from hlen, List.take_left]
  simp

/-- Appending the empty string is the identity. -/
theorem str_append_empty (s : String) : s ++ "" = s := by
  apply String.ext
  show s.data ++ ([] : List Char) = s.data
  simp

/-- Reassociation of the remote-prefixed branch name. -/
theorem origin_slash_append (d : String) : "origin/" ++ d = "origin" ++ ("/" ++ d) := by
  apply String.ext
  show "origin/".data ++ d.data = "origin".data ++ ("/".data ++ d.data)
  rfl

/-- A remote-prefixed branch name is nonempty. -/
theorem origin_ne_empty (d : String) : "origin/" ++ d ≠ "" := by
  intro h
  have : ("origin/" ++ d).data = [] := by rw [h]
  rw [show ("origin/" ++ d).data = "origin/".data ++ d.data from rfl] at this
  simp at this

/-- A remote-prefixed branch name over a newline-free short name is
newline-free. -/
theorem nl_not_mem_origin (d : String) (h : '\n' ∉ d.toList) :
    '\n' ∉ ("origin/" ++ d).toList := by
  intro hmem
  rw [show ("origin/" ++ d).toList = "origin/".data ++ d.data from rfl] at hmem
  cases List.mem_append.mp hmem with
  | inl hl => exact absurd hl (by decide)
  | inr hr => exact h hr

/-- Concrete repository state used by several witnesses: a clean checkout of a
feature branch over a main default, one commit of history, no upstream config,
no remote branch containing the scanned commit, a github remote, and no hook. -/
def baseEnv : GitEnv :=
  { headOut := "feat", originHeadOut := "origin/main",
    localBranches := ["main", "feat"],
    configMergeOut := none, hasDiffAt := fun s => if s = "HEAD" then false else true,
    history := fun r => if r = "feat" then ["sha1"] else [],
    remoteContaining := fun _ => [],
    gitLog := fun _ => "log body", hookExecutable := false,
    hookRun := fun _ _ _ => Except.ok "",
    remoteUrl := "https://github.com/bayesimpact/repo",
    userList := fun _ => [], mergeBase := fun _ _ => "mb",
    revParse := fun _ => "sha" }

/-- Concrete branch references matching baseEnv resolutions. -/
def refsW : _References :=
  { default := "main", branch := "feat", remote := "u-feat", base := "main" }

/-- Claim C9: for every invocation of resolve on a non-default checked-out
branch whose working tree diverges from HEAD, resolution fails with the
dirty-tree error, even when an explicit base is supplied. -/
theorem claim_C9 (env : GitEnv) (username branch default : String) (base : Option String)
    (hh : _get_head env = Except.ok branch) (hd : _get_default env = Except.ok default)
    (hne : branch ≠ default) (hdirty : env.hasDiffAt "HEAD" = true) :
    _get_git_branches env username base = Except.error (.valueError dirtyMsg) := by
  unfold _get_git_branches
  rw [hh, hd]
  simp [if_neg hne, hdirty]

/-- Witness for claim C9 at a concrete dirty repository state with an explicit
base supplied. -/
theorem claim_C9_witness :
    _get_git_branches { baseEnv with hasDiffAt := fun _ => true } "u" (some "dev")
      = Except.error (.valueError dirtyMsg) :=
  claim_C9 _ "u" "feat" "main" (some "dev") rfl rfl (by decide) rfl

/-- Claim C2: on a clean non-default branch, resolve returns a BranchSet whose
branch is the checked-out branch; its base is a supplied explicit base
verbatim, and is the default branch when no commit of the 5-commit window is on
any non-default remote-tracking branch. -/
theorem claim_C2 (env : GitEnv) (username branch default : String)
    (hh : _get_head env = Except.ok branch) (hd : _get_default env = Except.ok default)
    (hne : branch ≠ default) (hclean : env.hasDiffAt "HEAD" = false) :
    (∀ b : String, b ≠ "" →
      ∃ r, _get_git_branches env username (some b) = Except.ok r ∧
        r.branch = branch ∧ r.base = b) ∧
    ((env.history branch ≠ [] ∧
      (∀ sha ∈ (env.history branch).take 5, '\n' ∉ sha.toList) ∧
      '\n' ∉ default.toList ∧
      (∀ sha ∈ (env.history branch).take 5,
        ∀ rb ∈ env.remoteContaining sha, rb = "origin/" ++ default)) →
      ∃ r, _get_git_branches env username none = Except.ok r ∧
        r.branch = branch ∧ r.base = default) := by
  constructor
  · intro b hb
    refine ⟨_, get_git_branches_ok env username branch default (some b) hh hd hne hclean,
      rfl, ?_⟩
    show (if b = "" then pyOr (_get_best_base_branch env branch default) default else b) = b
    rw [if_neg hb]
  · rintro ⟨hhist, hsha, hdnl, hrb⟩
    have hrb2 : ∀ sha ∈ (env.history branch).take 5,
        ∀ rb ∈ env.remoteContaining sha, rb ≠ "" ∧ '\n' ∉ rb.toList := by
      intro sha hs rb hr
      rw [hrb sha hs rb hr]
      exact ⟨origin_ne_empty default, nl_not_mem_origin default hdnl⟩
    refine ⟨_, get_git_branches_ok env username branch default none hh hd hne hclean,
      rfl, ?_⟩
    show pyOr (_get_best_base_branch env branch default) default = default
    rw [best_base_eq_amended env branch default hhist hsha hrb2]
    unfold bestBaseAmended
    cases hf : ((env.history branch).take 5).find?
        (fun sha => !(env.remoteContaining sha).isEmpty) with
    | none => rfl
    | some sha =>
      have hmem := List.mem_of_find?_eq_some hf
      cases hB : env.remoteContaining sha with
      | nil =>
        have := List.find?_some hf
        rw [hB] at this
        simp at this
      | cons b0 bs =>
        have hb0 : b0 = "origin/" ++ default :=
          hrb sha hmem b0 (by rw [hB]; exact List.mem_cons_self _ _)
        have hends : endsWithPy b0 ("/" ++ default) = true := by
          rw [hb0, origin_slash_append]
          exact endsWithPy_append "origin" ("/" ++ default)
        have hany : (env.remoteContaining sha).any
            (fun rb => endsWithPy rb ("/" ++ default)) = true := by
          rw [hB]
          simp [hends]
        show pyOr
            (if ((env.remoteContaining sha).any fun rb => endsWithPy rb ("/" ++ default)) = true
              then none else some (afterLastSlash ((env.remoteContaining sha).headD "")))
            default = default
        rw [if_pos hany]
        rfl

/-- Repository state for the default-fallback half of claim C2: the scanned
commit lives only on the remote default branch. -/
def envC2w : GitEnv :=
  { baseEnv with remoteContaining := fun sha => if sha = "sha1" then ["origin/main"] else [] }

/-- Witness for claim C2: an explicit base taken verbatim, and the default
fallback when the scanned commit is only on the remote default branch. -/
theorem claim_C2_witness :
    (∃ r, _get_git_branches baseEnv "u" (some "dev") = Except.ok r ∧
      r.branch = "feat" ∧ r.base = "dev") ∧
    (∃ r, _get_git_branches envC2w "u" none = Except.ok r ∧
      r.branch = "feat" ∧ r.base = "main") :=
  ⟨(claim_C2 baseEnv "u" "feat" "main" rfl rfl (by decide) rfl).1 "dev" (by decide),
   (claim_C2 envC2w "u" "feat" "main" rfl rfl (by decide) rfl).2
     ⟨by decide, by decide, by decide, by decide⟩⟩

/-- Claim C10: when the checked-out branch has a recorded upstream merge ref,
resolve reuses its short name as the remote field, for every username. -/
theorem claim_C10 (env : GitEnv) (username branch default s : String) (base : Option String)
    (hh : _get_head env = Except.ok branch) (hd : _get_default env = Except.ok default)
    (hne : branch ≠ default) (hclean : env.hasDiffAt "HEAD" = false)
    (hm : env.configMergeOut = some s) (hs : pyDrop s 11 ≠ "") :
    ∃ r, _get_git_branches env username base = Except.ok r ∧ r.remote = pyDrop s 11 := by
  refine ⟨_, get_git_branches_ok env username branch default base hh hd hne hclean, ?_⟩
  show pyOr (_get_existing_remote env) (_cleanup_branch_name (username ++ "-" ++ branch))
      = pyDrop s 11
  unfold _get_existing_remote
  rw [hm]
  show (if pyDrop s 11 = "" then _ else pyDrop s 11) = pyDrop s 11
  rw [if_neg hs]

/-- Witness for claim C10 at a concrete state with a recorded upstream ref and
a username differing from the recorded name. -/
theorem claim_C10_witness :
    ∃ r, _get_git_branches { baseEnv with configMergeOut := some "refs/heads/old-name" }
        "othername" none = Except.ok r ∧
      r.remote = pyDrop "refs/heads/old-name" 11 :=
  claim_C10 _ "othername" "feat" "main" "refs/heads/old-name" none
    rfl rfl (by decide) rfl rfl (by decide)

/-- Repository state refuting claim C1 at the short-name reading: the scanned
commit is on a remote-tracking branch whose short name holds a slash. -/
def envC1a : GitEnv :=
  { baseEnv with
    remoteContaining := fun sha => if sha = "sha1" then ["origin/feature/x"] else [] }

/-- Repository state refuting claim C1 at the is-the-default reading: the
scanned commit is on a remote branch that merely ends in slash-default. -/
def envC1b : GitEnv :=
  { baseEnv with
    remoteContaining := fun sha => if sha = "sha1" then ["origin/foo/main"] else [] }

/-- Counterexample to claim C1. First state: the code answers the last
slash-separated component x, not the remote-prefix-stripped short name
feature/x of the matching remote branch as the claim requires. Second state:
the code treats a branch merely ending in slash-default as the default branch
and falls back to main, where the claim requires the non-default branch short
name foo/main. -/
theorem claim_C1_counterexample :
    ((_get_git_branches envC1a "u" none).map _References.base = Except.ok "x" ∧
      bestBaseClaimed envC1a "feat" "main" = some "feature/x" ∧
      ("x" : String) ≠ "feature/x") ∧
    ((_get_git_branches envC1b "u" none).map _References.base = Except.ok "main" ∧
      bestBaseClaimed envC1b "feat" "main" = some "foo/main" ∧
      ("main" : String) ≠ "foo/main") :=
  ⟨⟨rfl, rfl, by decide⟩, ⟨rfl, rfl, by decide⟩⟩

/-- Claim C1 (amended): when resolve runs the best-base heuristic, the base is
the amended claim-side transcription of the heuristic, which scans at most the
5 most recent commits nearest first, collects at the first scanned commit on at
least one remote-tracking branch all such branches, falls back to the default
when one of them ends in slash-default or when no scanned commit is on any
remote-tracking branch, and otherwise answers the last slash-separated
component of the first collected branch (default again when that component is
empty). -/
theorem claim_C1 (env : GitEnv) (username branch default : String)
    (hh : _get_head env = Except.ok branch) (hd : _get_default env = Except.ok default)
    (hne : branch ≠ default) (hclean : env.hasDiffAt "HEAD" = false)
    (hhist : env.history branch ≠ [])
    (hsha : ∀ sha ∈ (env.history branch).take 5, '\n' ∉ sha.toList)
    (hrb : ∀ sha ∈ (env.history branch).take 5,
      ∀ rb ∈ env.remoteContaining sha, rb ≠ "" ∧ '\n' ∉ rb.toList) :
    (_get_git_branches env username none).map _References.base
      = Except.ok (pyOr (bestBaseAmended env branch default) default) := by
  rw [get_git_branches_ok env username branch default none hh hd hne hclean]
  show Except.ok (pyOr (_get_best_base_branch env branch default) default) = _
  rw [best_base_eq_amended env branch default hhist hsha hrb]

/-- Repository state for the claim C1 witness: the scanned commit is on two
non-default remote-tracking branches. -/
def envC1w : GitEnv :=
  { baseEnv with
    remoteContaining := fun sha => if sha = "sha1" then ["origin/dev", "origin/qa"] else [] }

/-- Witness for claim C1 at a concrete state, where the heuristic answers the
first collected branch dev. -/
theorem claim_C1_witness :
    (_get_git_branches envC1w "u" none).map _References.base
      = Except.ok (pyOr (bestBaseAmended envC1w "feat" "main") "main") :=
  claim_C1 envC1w "u" "feat" "main" rfl rfl (by decide) rfl
    (by decide) (by decide) (by decide)

/-- Counterexample to claim C5: the fullwidth number sign transliterates to the
hash sign, so sanitization can output a string holding a hash character, and
sanitizing that already-sanitized output changes it. -/
theorem claim_C5_counterexample :
    '#' ∈ (_cleanup_branch_name (String.mk [Char.ofNat 0xFF03])).toList ∧
    _cleanup_branch_name (_cleanup_branch_name (String.mk [Char.ofNat 0xFF03]))
      ≠ _cleanup_branch_name (String.mk [Char.ofNat 0xFF03]) := by
  constructor
  · decide
  · decide

/-- Claim C5 (amended): sanitization is a pure function whose output is always
pure ASCII; and on every input none of whose non-hash characters transliterates
to text holding a hash sign, the output holds no hash sign and sanitization is
idempotent. Idempotence and hash-freedom fail in general, per the
counterexample. -/
theorem claim_C5 (s : String) :
    (∀ d ∈ (_cleanup_branch_name s).toList, d.toNat < 128) ∧
    ((∀ c ∈ s.toList, c ≠ '#' → '#' ∉ unidecodeChar c) →
      '#' ∉ (_cleanup_branch_name s).toList ∧
      _cleanup_branch_name (_cleanup_branch_name s) = _cleanup_branch_name s) := by
  have htoList : (_cleanup_branch_name s).toList
      = ((s.toList.filter (fun c => c ≠ '#')).map unidecodeChar).flatten := by
    rw [cleanup_eq_filter]
    rfl
  have hascii : ∀ d ∈ (_cleanup_branch_name s).toList, d.toNat < 128 := by
    intro d hd
    rw [htoList] at hd
    obtain ⟨l, hl, hdl⟩ := List.mem_flatten.mp hd
    obtain ⟨c, _, rfl⟩ := List.mem_map.mp hl
    exact unidecodeChar_ascii c d hdl
  refine ⟨hascii, ?_⟩
  intro h
  have hnohash : '#' ∉ (_cleanup_branch_name s).toList := by
    rw [htoList]
    intro hmem
    obtain ⟨l, hl, hdl⟩ := List.mem_flatten.mp hmem
    obtain ⟨c, hc, rfl⟩ := List.mem_map.mp hl
    have hcs := List.mem_filter.mp hc
    exact h c hcs.1 (by simpa using hcs.2) hdl
  refine ⟨hnohash, ?_⟩
  rw [cleanup_eq_filter (_cleanup_branch_name s)]
  have hfilter : (_cleanup_branch_name s).toList.filter (fun c => c ≠ '#')
      = (_cleanup_branch_name s).toList := by
    apply List.filter_eq_self.mpr
    intro a ha
    simp only [decide_eq_true_eq]
    intro he
    exact hnohash (he ▸ ha)
  rw [hfilter]
  unfold unidecodeStr
  rw [show (String.mk (_cleanup_branch_name s).toList).toList
      = (_cleanup_branch_name s).toList from rfl]
  rw [unidecode_flatten_of_ascii _ hascii]
  rfl

/-- Witness for claim C5 at a concrete accented input: the hypothesis holds and
the sanitized output is hash-free and a fixpoint. -/
theorem claim_C5_witness :
    '#' ∉ (_cleanup_branch_name "cyrille-Rényi#1").toList ∧
    _cleanup_branch_name (_cleanup_branch_name "cyrille-Rényi#1")
      = _cleanup_branch_name "cyrille-Rényi#1" :=
  (claim_C5 "cyrille-Rényi#1").2 (by decide)

/-- Counterexample to claim C7: on a message without any newline, as a
one-commit subject-only log produces, the unpacking of the one-split raises a
ValueError and no merge request is created, while the claim mandates a merge
request titled with the whole message. -/
theorem claim_C7_counterexample :
    gitlab_request_review baseEnv "Fix typo" refsW none
      = Except.error (.valueError "not enough values to unpack (expected 2, got 1)") := rfl

/-- Claim C7 (amended): for every message holding at least one newline, the
gitlab backend creates a merge request titled with the first line, described by
the remainder, with source branch the remote field and target branch the base
field, and assigned to the first resolved reviewer user when reviewer handles
are supplied. -/
theorem claim_C7 (env : GitEnv) (message : String) (refs : _References)
    (reviewers : Option String) (h : '\n' ∈ message.toList) :
    gitlab_request_review env message refs reviewers
      = Except.ok
        { description := afterFirstLine message,
          source_branch := refs.remote, target_branch := refs.base,
          title := firstLineOf message,
          assignee_id := (_get_reviewers env reviewers).head? } := by
  unfold gitlab_request_review
  rw [pySplitOnceNl_of_mem message h]
  cases hrev : _get_reviewers env reviewers with
  | nil => rfl
  | cons u us => rfl

/-- Repository state for the claim C7 witness, resolving the handle alice. -/
def envC7w : GitEnv :=
  { baseEnv with userList := fun r => if r = "alice" then [7, 8] else [] }

/-- Witness for claim C7 at a concrete two-line message with a reviewer
handle. -/
theorem claim_C7_witness :
    gitlab_request_review envC7w "Fix typo\nLonger description" refsW (some "alice")
      = Except.ok
        { description := "Longer description",
          source_branch := "u-feat", target_branch := "main",
          title := "Fix typo", assignee_id := some 7 } := by
  exact claim_C7 envC7w "Fix typo\nLonger description" refsW (some "alice") (by decide)

/-- Claim C6: the review message is the raw-body commit log of the base-branch
range concatenated with the hook output when the hook is executable (the hook
receiving the branch, remote branch and reviewer values); an absent or
non-executable hook contributes nothing; and a failing hook aborts message and
review-request construction with the process error instead of omitting the
hook output. -/
theorem claim_C6 (env : GitEnv) (refs : _References) (reviewers : Option String) :
    (env.hookExecutable = false →
      _make_pr_message env refs reviewers
        = Except.ok (env.gitLog ("origin/" ++ refs.base ++ ".." ++ refs.branch))) ∧
    (∀ out, env.hookExecutable = true →
      env.hookRun refs.branch refs.remote (reviewers.getD "") = Except.ok out →
      _make_pr_message env refs reviewers
        = Except.ok (env.gitLog ("origin/" ++ refs.base ++ ".." ++ refs.branch) ++ out)) ∧
    (∀ e, env.hookExecutable = true →
      env.hookRun refs.branch refs.remote (reviewers.getD "") = Except.error e →
      _make_pr_message env refs reviewers = Except.error .processError ∧
      _request_review env refs reviewers = Except.error .processError) := by
  refine ⟨?_, ?_, ?_⟩
  · intro hexec
    have hhook : _run_git_review_hook env refs.branch refs.remote reviewers
        = Except.ok "" := by
      unfold _run_git_review_hook
      rw [hexec]
      rfl
    unfold _make_pr_message
    rw [hhook]
    show Except.ok (env.gitLog ("origin/" ++ refs.base ++ ".." ++ refs.branch) ++ "") = _
    rw [str_append_empty]
  · intro out hexec hrun
    have hhook : _run_git_review_hook env refs.branch refs.remote reviewers
        = Except.ok out := by
      unfold _run_git_review_hook
      rw [hexec, hrun]
      rfl
    unfold _make_pr_message
    rw [hhook]
  · intro e hexec hrun
    have hhook : _run_git_review_hook env refs.branch refs.remote reviewers
        = Except.error .processError := by
      unfold _run_git_review_hook
      rw [hexec, hrun]
      rfl
    have hmsg : _make_pr_message env refs reviewers = Except.error .processError := by
      unfold _make_pr_message
      rw [hhook]
    refine ⟨hmsg, ?_⟩
    unfold _request_review
    rw [hmsg]

/-- Repository state with an executable, succeeding hook. -/
def envHookOk : GitEnv :=
  { baseEnv with hookExecutable := true, hookRun := fun _ _ _ => Except.ok "\nHOOK" }

/-- Repository state with an executable hook that exits non-zero. -/
def envHookErr : GitEnv :=
  { baseEnv with hookExecutable := true, hookRun := fun _ _ _ => Except.error () }

/-- Witness for claim C6 at three concrete states: no hook, a succeeding hook,
and a failing hook. -/
theorem claim_C6_witness :
    _make_pr_message baseEnv refsW none
      = Except.ok (baseEnv.gitLog ("origin/" ++ refsW.base ++ ".." ++ refsW.branch)) ∧
    _make_pr_message envHookOk refsW none
      = Except.ok (envHookOk.gitLog ("origin/" ++ refsW.base ++ ".." ++ refsW.branch)
          ++ "\nHOOK") ∧
    _make_pr_message envHookErr refsW none = Except.error .processError ∧
    _request_review envHookErr refsW none = Except.error .processError :=
  ⟨(claim_C6 baseEnv refsW none).1 rfl,
   (claim_C6 envHookOk refsW none).2.1 "\nHOOK" rfl rfl,
   ((claim_C6 envHookErr refsW none).2.2 () rfl rfl).1,
   ((claim_C6 envHookErr refsW none).2.2 () rfl rfl).2⟩

/-- Claim C3, evaluated at the failing input: the factory does send the gitlab
SSH URL to the gitlab backend, the github-domain URL to the github backend and
any other URL to the NotImplementedError, but the project path it extracts for
the gitlab backend keeps the colon separator, because the regex capture starts
right after the fourteen-character host with nothing consuming the colon. -/
theorem claim_C3_bug :
    from_url "git@gitlab.com:group/proj.git" = Except.ok (.gitlabP ":group/proj") ∧
    (":group/proj" : String) ≠ "group/proj" ∧
    from_url "https://github.com/bayesimpact/repo.git" = Except.ok .githubP ∧
    from_url "https://bitbucket.org/team/repo.git"
      = Except.error (.notImplementedError
          "Review platform not recognized. Remote URL is https://bitbucket.org/team/repo.git") :=
  ⟨rfl, by decide, rfl, rfl⟩

/-- Repository state for claim C4: the checked-out branch is the default. -/
def envC4 : GitEnv := { baseEnv with headOut := "main" }

/-- Claim C4, evaluated at the failing input: on the default branch the code
raises the list.remove ValueError instead of the branch-required error with the
hint list, because the literal double quotes of the branch format argument
reach git, every output line is quote-wrapped, and removing the unquoted
default name from that list fails. -/
theorem claim_C4_bug :
    _get_git_branches envC4 "u" none
      = Except.error (.valueError "list.remove(x): x not in list") := rfl

/-- Claim C8: when submit is requested and the run has reached the submit step,
the workflow re-reads the local and remote shas of the pushed ref; when they
differ it fails with the consistency error while the push and review-request
effects remain in place, and when they are equal it invokes the git submit
mutation with the auto-merge environment flag set. -/
theorem claim_C8 (env : GitEnv) (username : String) (base reviewers : Option String)
    (refs : _References) (eff : Effect)
    (hu : username ≠ "")
    (hr : _get_git_branches env username base = Except.ok refs)
    (hdiff : env.hasDiffAt (env.mergeBase "HEAD" ("origin/" ++ refs.base)) = true)
    (hreq : _request_review env refs reviewers = Except.ok eff) :
    (env.revParse refs.branch ≠ env.revParse ("origin/" ++ refs.remote) →
      prepare_push_and_request_review env username base reviewers false true
        = ⟨[Effect.push false (refs.branch ++ ":" ++ refs.remote), eff],
            some (.valueError consistencyMsg)⟩) ∧
    (env.revParse refs.branch = env.revParse ("origin/" ++ refs.remote) →
      prepare_push_and_request_review env username base reviewers false true
        = ⟨[Effect.push false (refs.branch ++ ":" ++ refs.remote), eff, Effect.gitSubmit true],
            none⟩) := by
  constructor
  · intro hshas
    simp [prepare_push_and_request_review, hu, hr, hdiff, hreq, hshas, Except.map]
  · intro hshas
    simp [prepare_push_and_request_review, hu, hr, hdiff, hreq, hshas, Except.map]

/-- Repository state for the claim C8 witness: clean feature branch, a diff
against the merge base, a github remote, and matching shas after the push. -/
def envC8w : GitEnv := baseEnv

/-- Review-request effect the claim C8 witness produces. -/
def effC8w : Effect :=
  Effect.pullRequest ["hub", "pull-request", "-m", "log body", "-h", "u-feat", "-b", "main"]

/-- Witness for claim C8 at a concrete state on the equal-sha branch: the run
ends with the push, the pull request and the auto-merge submit call. -/
theorem claim_C8_witness :
    prepare_push_and_request_review envC8w "u" none none false true
      = ⟨[Effect.push false "feat:u-feat", effC8w, Effect.gitSubmit true], none⟩ := by
  exact (claim_C8 envC8w "u" none none refsW effC8w (by decide) rfl rfl rfl).2 rfl

end GitReview
